import Mathlib

/-!
Verification of the InspIRCd extensibility core (configuration store,
certificate extension item, event pipeline) against its natural-language
specification.  The certificate wire codec and the extension-item
reference-counting discipline are embedded from `src/modules/m_sslinfo.cpp`;
`ServerLimits` is embedded from `include/configreader.h`.  Components whose
bodies are declared in `include/configreader.h` but implemented elsewhere
(`ConfValue`, `readString`, `Apply`) and the event pipeline are modelled from
the specification, as marked on each definition.
-/

set_option autoImplicit false

/-- The TLS certificate record attached to users (`ssl_cert` from
`modules/ssl.h`): four validity flags plus fingerprint, distinguished name,
issuer and error text.  String fields default to the empty string, as
`std::string` does. -/
structure ssl_cert where
  invalid : Bool := false
  trusted : Bool := false
  revoked : Bool := false
  unknownsigner : Bool := false
  fingerprint : String := ""
  dn : String := ""
  issuer : String := ""
  error : String := ""
  deriving DecidableEq, Repr

/-- `std::getline(stream, out, delim)`: the characters before the first
occurrence of `delim` (the delimiter itself is consumed), paired with the
remaining stream contents.  On a stream with no delimiter the whole rest is
read; on an exhausted stream the output is empty. -/
def splitUntil (delim : Char) : List Char → List Char × List Char
  | [] => ([], [])
  | c :: cs =>
    if c = delim then ([], cs)
    else
      let p := splitUntil delim cs
      (c :: p.1, p.2)

/-- `value.find(ch) != std::string::npos` on a token held as a char list. -/
def hasChar (l : List Char) (d : Char) : Bool :=
  match l with
  | [] => false
  | c :: rest => if c = d then true else hasChar rest d

/-- The single-letter flag cluster of the certificate meta line:
`v`/`V` for invalid, `T`/`t` for trusted, `R`/`r` for revoked, `s`/`S` for
unknown signer, `E`/`e` for presence of error text.  The letters are the ones
the decoder `SSLCertExt::FromNetwork` in `src/modules/m_sslinfo.cpp` tests
for. -/
def flagsChars (c : ssl_cert) : List Char :=
  [if c.invalid then 'v' else 'V',
   if c.trusted then 'T' else 't',
   if c.revoked then 'R' else 'r',
   if c.unknownsigner then 's' else 'S',
   if c.error.data.isEmpty then 'e' else 'E']

/-- The part of the meta line after the flag cluster: the error text when an
error is recorded, otherwise the space-separated
fingerprint/distinguished-name/issuer triple. -/
def payloadChars (c : ssl_cert) : List Char :=
  if c.error.data.isEmpty then
    c.fingerprint.data ++ ' ' :: (c.dn.data ++ ' ' :: c.issuer.data)
  else c.error.data

/-- The full meta line as a character list: flag cluster, one space, payload. -/
def metaChars (c : ssl_cert) : List Char :=
  flagsChars c ++ ' ' :: payloadChars c

/-- Modelled from the spec: `ssl_cert::GetMetaLine` lives in `modules/ssl.h`,
which is not under `src/`.  Per spec §4.4 the encoding is "a single-letter
flag cluster (validity/trust/revocation/unknown-signer) followed by either an
error field or the (fingerprint, distinguished-name, issuer) triple,
space-separated, terminated at a newline boundary for the issuer field"; the
flag letters are fixed by the in-source decoder `SSLCertExt::FromNetwork`,
which tests the first space-separated token for `v`, `T`, `R`, `s` and `E`. -/
def GetMetaLine (c : ssl_cert) : String := ⟨metaChars c⟩

/-- `SSLCertExt::ToNetwork` (`src/modules/m_sslinfo.cpp` lines 70-73): the
wire form of a certificate payload is its meta line. -/
def ToNetwork (c : ssl_cert) : String := GetMetaLine c

/-- Core of `SSLCertExt::FromNetwork` (`src/modules/m_sslinfo.cpp` lines
75-98): read the flag token up to a space; set the four flags from the
letters it contains; then either read the error text up to a newline (flag
token contains `E`) or read fingerprint, dn (each up to a space) and issuer
(up to a newline).  Fields not read keep the empty default of the freshly
constructed `ssl_cert`. -/
def fromNetworkChars (s : List Char) : ssl_cert :=
  let p := splitUntil ' ' s
  let v := p.1
  if hasChar v 'E' then
    { invalid := hasChar v 'v', trusted := hasChar v 'T',
      revoked := hasChar v 'R', unknownsigner := hasChar v 's',
      error := ⟨(splitUntil '\n' p.2).1⟩ }
  else
    let fp := splitUntil ' ' p.2
    let dnp := splitUntil ' ' fp.2
    let iss := splitUntil '\n' dnp.2
    { invalid := hasChar v 'v', trusted := hasChar v 'T',
      revoked := hasChar v 'R', unknownsigner := hasChar v 's',
      fingerprint := ⟨fp.1⟩, dn := ⟨dnp.1⟩, issuer := ⟨iss.1⟩ }

/-- `SSLCertExt::FromNetwork` as a function from the wire string to the
certificate stored on the container. -/
def FromNetwork (value : String) : ssl_cert := fromNetworkChars value.data

/-- The error channel of the decoder.  The spec demands malformed input be
rejected with a `DecodeError`. -/
inductive DecodeError where
  | Malformed
  deriving DecidableEq, Repr

/-- The decoder's result, with the error channel the spec asks for.  The
source `SSLCertExt::FromNetwork` returns `void` and has no failure path
(`std::getline` on a `stringstream` does not throw with default exception
masks), so the embedding always succeeds. -/
def FromNetworkResult (value : String) : Except DecodeError ssl_cert :=
  Except.ok (FromNetwork value)

/-- The certificates whose wire encoding is lossless under the codec above:
either no error text is recorded, the fingerprint and distinguished name
contain no space and the issuer no newline; or error text is recorded, the
three detail fields are empty and the error contains no newline. -/
def wireSafe (c : ssl_cert) : Bool :=
  if c.error.data.isEmpty then
    !(hasChar c.fingerprint.data ' ') && !(hasChar c.dn.data ' ')
      && !(hasChar c.issuer.data '\n')
  else
    c.fingerprint.data.isEmpty && c.dn.data.isEmpty && c.issuer.data.isEmpty
      && !(hasChar c.error.data '\n')

/-- Worked-example certificate: trusted, with fingerprint, dn and issuer. -/
def certDetail : ssl_cert :=
  { trusted := true, fingerprint := "ab12", dn := "CN=test", issuer := "CN=ca" }

/-- Worked-example certificate: only error text set. -/
def certError : ssl_cert := { error := "bad cert" }

/-- A certificate that is legal to set locally but whose distinguished name
contains a space, so the space-separated wire form cannot represent it. -/
def certSpaceDN : ssl_cert :=
  { trusted := true, fingerprint := "ab12", dn := "CN=a b", issuer := "CN=ca" }

/-- Length limits from `include/configreader.h` (`class ServerLimits`).
The fields are `size_t` in the source; they are embedded as `Nat`, with the
`size_t` wraparound made explicit in `Finalise`. -/
structure ServerLimits where
  NickMax : Nat
  ChanMax : Nat
  MaxModes : Nat
  IdentMax : Nat
  MaxQuit : Nat
  MaxTopic : Nat
  MaxKick : Nat
  MaxGecos : Nat
  MaxAway : Nat
  deriving DecidableEq, Repr

/-- The `ServerLimits` default constructor
(`include/configreader.h` line 95). -/
def ServerLimits.init : ServerLimits :=
  { NickMax := 31, ChanMax := 64, MaxModes := 20, IdentMax := 12,
    MaxQuit := 255, MaxTopic := 307, MaxKick := 255, MaxGecos := 128,
    MaxAway := 200 }

/-- `ServerLimits::Finalise` (`include/configreader.h` lines 102-112):
post-increments every limit except `MaxModes`.  The `++` acts on `size_t`,
so each increment is taken modulo `2 ^ 64`. -/
def ServerLimits.Finalise (l : ServerLimits) : ServerLimits :=
  { NickMax := (l.NickMax + 1) % 2 ^ 64, ChanMax := (l.ChanMax + 1) % 2 ^ 64,
    MaxModes := l.MaxModes, IdentMax := (l.IdentMax + 1) % 2 ^ 64,
    MaxQuit := (l.MaxQuit + 1) % 2 ^ 64, MaxTopic := (l.MaxTopic + 1) % 2 ^ 64,
    MaxKick := (l.MaxKick + 1) % 2 ^ 64, MaxGecos := (l.MaxGecos + 1) % 2 ^ 64,
    MaxAway := (l.MaxAway + 1) % 2 ^ 64 }

/-- One parsed configuration block (`struct ConfigTag` from
`include/configreader.h` lines 40-58): tag name, source location and the
ordered key/value items. -/
structure ConfigTag where
  tag : String
  src_name : String
  src_line : Int
  items : List (String × String)
  deriving DecidableEq, Repr

/-- The tag store in document order.  `ConfigDataHash` in the source is a
`std::multimap` keyed by tag name; tags sharing a name keep insertion order,
so for per-name lookups the store is faithfully a document-ordered list. -/
abbrev ConfigStore : Type := List ConfigTag

/-- Modelled from the spec: the body of `ServerConfig::ConfValue` (declared at
`include/configreader.h` line 132) is not under `src/`.  Per spec §4.1,
`get_tag(name, occurrence_index)` "returns the Nth tag with that name in
document order, or none": walk the store, counting down the offset on each
tag whose name matches. -/
def ConfValue : List ConfigTag → String → Nat → Option ConfigTag
  | [], _, _ => none
  | t :: rest, name, off =>
    if t.tag = name then
      match off with
      | 0 => some t
      | o + 1 => ConfValue rest name o
    else ConfValue rest name off

/-- Error taxonomy of the required-string reader (spec §4.1 and §7). -/
inductive ConfigError where
  | MissingKey
  | NewlineForbidden
  deriving DecidableEq, Repr

/-- Modelled from the spec: the body of `ConfigTag::readString` (declared at
`include/configreader.h` line 55) is not under `src/`.  Per spec §4.1 the
required-string reader "fails with a MissingKey error instead of defaulting,
with an option to allow embedded newlines or reject them (rejecting is the
default)": find the first item with the requested key; absent keys are a
`MissingKey` error; an embedded newline is rejected unless
`allow_newline` is set. -/
def ConfigTag.readString (t : ConfigTag) (key : String)
    (allow_newline : Bool) : Except ConfigError String :=
  match t.items.find? (fun kv => kv.1 = key) with
  | none => Except.error ConfigError.MissingKey
  | some kv =>
    if !allow_newline && hasChar kv.2.data '\n' then
      Except.error ConfigError.NewlineForbidden
    else Except.ok kv.2

/-- A candidate or published configuration snapshot: the parsed tag data. -/
abbrev Snapshot : Type := List ConfigTag

/-- The daemon's published configuration state: the current snapshot. -/
structure DaemonConfig where
  current : Snapshot
  deriving Repr

/-- Modelled from the spec: `ServerConfig::Apply` (declared at
`include/configreader.h` line 558) is implemented outside `src/`.  Per spec
§4.2, reload parses a candidate snapshot accumulating parse errors, runs
structural cross-checks, and "if any check fails, abort and leave the current
snapshot untouched, returning all accumulated errors"; on success the
candidate is published as current.  `parse` returns the candidate and its
parse errors; `crosscheck` returns the structural validation errors. -/
def reload (parse : String → Snapshot × List String)
    (crosscheck : Snapshot → List String) (source : String)
    (d : DaemonConfig) : DaemonConfig × List String :=
  let cand := parse source
  match cand.2 ++ crosscheck cand.1 with
  | [] => ({ current := cand.1 }, [])
  | e :: es => (d, e :: es)

/-- State of the certificate extension across all extensible entities:
`store` maps entity ids to the certificate id attached under `ssl_cert`
(the `Extensible` raw map, one entry per entity), `rc` is each certificate
record's reference count, and `alive` records which certificate records have
not been destroyed (`delete`d). -/
structure ExtState where
  store : List (Nat × Nat)
  rc : Nat → Nat
  alive : Nat → Bool

/-- `Extensible::GetRaw`: the payload stored for an entity, if any. -/
def lookupEnt (store : List (Nat × Nat)) (e : Nat) : Option Nat :=
  (store.find? (fun p => p.1 = e)).map (fun p => p.2)

/-- `Extensible::SetRaw`'s storage effect: replace the entity's entry, or
append a new one. -/
def storeEnt : List (Nat × Nat) → Nat → Nat → List (Nat × Nat)
  | [], e, c => [(e, c)]
  | p :: rest, e, c =>
    if p.1 = e then (e, c) :: rest else p :: storeEnt rest e c

/-- `Extensible::UnsetRaw`'s storage effect: drop the entity's entry. -/
def removeEnt : List (Nat × Nat) → Nat → List (Nat × Nat)
  | [], _ => []
  | p :: rest, e => if p.1 = e then rest else p :: removeEnt rest e

/-- Modelled from the spec: `ssl_cert::refcount_inc` lives in
`modules/ssl.h`, not under `src/`.  Per spec §3/§9 the certificate record is
reference counted and "destroyed only when its last referencing entity unsets
it"; `refcount_inc` bumps the record's count. -/
def rcInc (st : ExtState) (c : Nat) : ExtState :=
  { st with rc := fun x => if x = c then st.rc x + 1 else st.rc x }

/-- Modelled from the spec: `ssl_cert::refcount_dec` lives in
`modules/ssl.h`, not under `src/`.  It drops the record's count; the call
sites in `src/modules/m_sslinfo.cpp` (`if (old && old->refcount_dec()) delete
old;`) fix its contract: it reports whether the count reached zero, i.e.
whether this release was the last reference. -/
def rcDec (st : ExtState) (c : Nat) : ExtState × Bool :=
  ({ st with rc := fun x => if x = c then st.rc x - 1 else st.rc x },
   st.rc c - 1 = 0)

/-- `SSLCertExt::Delete` (`src/modules/m_sslinfo.cpp` lines 100-105): a null
payload is ignored; otherwise the record's reference count is dropped and the
record is destroyed exactly when the count reaches zero. -/
def SSLCertExt.Delete (st : ExtState) (old : Option Nat) : ExtState :=
  match old with
  | none => st
  | some o =>
    let d := rcDec st o
    if d.2 then
      { d.1 with alive := fun x => if x = o then false else d.1.alive x }
    else d.1

/-- `SSLCertExt::get` (`src/modules/m_sslinfo.cpp` lines 52-55). -/
def SSLCertExt.get (st : ExtState) (e : Nat) : Option Nat :=
  lookupEnt st.store e

/-- `SSLCertExt::set` (`src/modules/m_sslinfo.cpp` lines 57-63): increment
the new record's count, store it (receiving the previous payload back from
`SetRaw`), then release the previous payload, destroying it if that was its
last reference. -/
def SSLCertExt.set (st : ExtState) (e c : Nat) : ExtState :=
  let st1 := rcInc st c
  let old := lookupEnt st1.store e
  let st2 := { st1 with store := storeEnt st1.store e c }
  SSLCertExt.Delete st2 old

/-- `SSLCertExt::unset` (`src/modules/m_sslinfo.cpp` lines 65-68):
`Delete(container, UnsetRaw(container))`. -/
def SSLCertExt.unset (st : ExtState) (e : Nat) : ExtState :=
  let old := lookupEnt st.store e
  SSLCertExt.Delete { st with store := removeEnt st.store e } old

/-- Number of entries in an entity/payload map referencing record `c`. -/
def refsIn : List (Nat × Nat) → Nat → Nat
  | [], _ => 0
  | p :: rest, c => (if p.2 = c then 1 else 0) + refsIn rest c

/-- Number of entities currently referencing certificate record `c`. -/
def refs (st : ExtState) (c : Nat) : Nat :=
  refsIn st.store c

/-- Well-formedness of the extension state: every record's reference count
equals the number of entities referencing it, and every referenced record is
still alive. -/
def WF (st : ExtState) : Prop :=
  (∀ c, st.rc c = refs st c) ∧ (∀ c, 0 < refs st c → st.alive c = true)

/-- One extension-item operation on some entity. -/
inductive ExtOp where
  | setOp (e c : Nat)
  | unsetOp (e : Nat)

/-- Run one operation.  A `setOp` whose certificate record has already been
destroyed would pass a dangling pointer into `SSLCertExt::set` — undefined
behaviour in the source — so the model only applies `set` to live records. -/
def applyOp (st : ExtState) : ExtOp → ExtState
  | ExtOp.setOp e c => if st.alive c then SSLCertExt.set st e c else st
  | ExtOp.unsetOp e => SSLCertExt.unset st e

/-- Run a sequence of set/unset operations across entities. -/
def applyOps (st : ExtState) (ops : List ExtOp) : ExtState :=
  ops.foldl applyOp st

/-- A demonstration state: entity 1 and entity 2 both reference certificate
record 10, which is alive with reference count 2; record 20 is freshly
allocated (alive, not yet referenced). -/
def demoState : ExtState :=
  { store := [(1, 10), (2, 10)],
    rc := fun x => if x = 10 then 2 else 0,
    alive := fun x => x = 10 || x = 20 }

/-- A listener's verdict (spec §4.5): `Override` carries the replacement
payload; `Unhandled` is the default verdict when no listener is terminal. -/
inductive Verdict (P : Type) where
  | Continue
  | Deny
  | Allow
  | Override (payload : P)
  | Unhandled
  deriving Repr

/-- One listener binding: registration id, priority, handler. -/
structure Listener (P : Type) where
  id : Nat
  priority : Int
  handle : P → Verdict P

/-- Modelled from the spec: the event pipeline has no code under `src/`.
Insert a binding into a priority-sorted list, after all bindings of equal or
higher priority, so the sort is stable (ties keep registration order) and
higher priority runs first — the spec's own example has priority 10 run
before 5 before 1. -/
def insertBinding {P : Type} (l : Listener P) :
    List (Listener P) → List (Listener P)
  | [] => [l]
  | x :: xs =>
    if x.priority < l.priority then l :: x :: xs else x :: insertBinding l xs

/-- Modelled from the spec (§4.5): the bound listeners "sorted by a stable
priority and, for equal priority, by registration order". -/
def sortBindings {P : Type} (ls : List (Listener P)) : List (Listener P) :=
  ls.foldl (fun acc l => insertBinding l acc) []

/-- Modelled from the spec (§4.5): invoke each listener in order; `Continue`
moves on, `Deny` and `Allow` are terminal, `Override` replaces the payload in
place and continues; if no listener is terminal the default `Unhandled`
verdict is returned.  Also returns the ids of the listeners invoked. -/
def runBindings {P : Type} : List (Listener P) → P → Verdict P × List Nat
  | [], _ => (Verdict.Unhandled, [])
  | l :: rest, p =>
    match l.handle p with
    | Verdict.Continue =>
      let r := runBindings rest p
      (r.1, l.id :: r.2)
    | Verdict.Deny => (Verdict.Deny, [l.id])
    | Verdict.Allow => (Verdict.Allow, [l.id])
    | Verdict.Override q =>
      let r := runBindings rest q
      (r.1, l.id :: r.2)
    | Verdict.Unhandled =>
      let r := runBindings rest p
      (r.1, l.id :: r.2)

/-- Modelled from the spec (§4.5): `raise(event_kind, payload)` dispatches to
the bound listeners in priority order. -/
def raise {P : Type} (ls : List (Listener P)) (p : P) : Verdict P × List Nat :=
  runBindings (sortBindings ls) p

/-- Spec example listener L1: priority 10, returns Continue. -/
def exampleL1 : Listener Nat := ⟨1, 10, fun _ => Verdict.Continue⟩

/-- Spec example listener L2: priority 5, returns Deny. -/
def exampleL2 : Listener Nat := ⟨2, 5, fun _ => Verdict.Deny⟩

/-- Spec example listener L3: priority 1, returns Allow. -/
def exampleL3 : Listener Nat := ⟨3, 1, fun _ => Verdict.Allow⟩

/-- Demonstration tags for the configuration-store lookups. -/
def demoTagA : ConfigTag :=
  ⟨"server", "inspircd.conf", 1, [("name", "irc.example.com")]⟩

/-- First `connect` tag in document order. -/
def demoTagB : ConfigTag :=
  ⟨"connect", "inspircd.conf", 4, [("allow", "*")]⟩

/-- Second `connect` tag in document order. -/
def demoTagC : ConfigTag :=
  ⟨"connect", "inspircd.conf", 9, [("allow", "10.0.0.0/8")]⟩

/-- A tag whose `host` value embeds a newline and which has no
`fingerprint` key. -/
def demoTagOper : ConfigTag :=
  ⟨"oper", "inspircd.conf", 2, [("name", "admin"), ("host", "a\nb")]⟩

/-- A parser producing a fixed candidate snapshot with no parse errors. -/
def demoParse (_ : String) : Snapshot × List String := ([demoTagA], [])

/-- A structural cross-check that always fails, as with a class tag
referencing an undefined parent class. -/
def demoCrosscheck (_ : Snapshot) : List String :=
  ["<connect:parent> references undefined class at inspircd.conf:4"]

theorem splitUntil_not_mem (delim : Char) (l : List Char)
    (h : ∀ x ∈ l, x ≠ delim) : splitUntil delim l = (l, []) := by
  induction l with
  | nil => rfl
  | cons c cs ih =>
    have hc : c ≠ delim := h c (List.mem_cons_self c cs)
    simp [splitUntil, hc, ih (fun x hx => h x (List.mem_cons_of_mem c hx))]

theorem splitUntil_append (delim : Char) (l r : List Char)
    (h : ∀ x ∈ l, x ≠ delim) : splitUntil delim (l ++ delim :: r) = (l, r) := by
  induction l with
  | nil => simp [splitUntil]
  | cons c cs ih =>
    have hc : c ≠ delim := h c (List.mem_cons_self c cs)
    simp [splitUntil, hc, ih (fun x hx => h x (List.mem_cons_of_mem c hx))]

theorem hasChar_eq_false_iff (l : List Char) (d : Char) :
    hasChar l d = false ↔ ∀ x ∈ l, x ≠ d := by
  induction l with
  | nil => simp [hasChar]
  | cons c cs ih => by_cases hc : c = d <;> simp [hasChar, hc, ih]

theorem string_eq_empty_of_isEmpty (s : String) (h : s.data.isEmpty = true) :
    s = "" := by
  cases s with
  | mk data =>
    cases data with
    | nil => rfl
    | cons c cs => simp at h

theorem flags_spec (c : ssl_cert) :
    hasChar (flagsChars c) 'v' = c.invalid ∧
    hasChar (flagsChars c) 'T' = c.trusted ∧
    hasChar (flagsChars c) 'R' = c.revoked ∧
    hasChar (flagsChars c) 's' = c.unknownsigner ∧
    hasChar (flagsChars c) 'E' = !c.error.data.isEmpty ∧
    ∀ x ∈ flagsChars c, x ≠ ' ' := by
  obtain ⟨ci, ct, cr, cu, cf, cd, cis, ce⟩ := c
  cases ci <;> cases ct <;> cases cr <;> cases cu <;>
    cases h : ce.data.isEmpty <;> simp [flagsChars, h] <;> decide

theorem string_eq_empty_of_data_nil (s : String) (h : s.data = []) : s = "" :=
  string_eq_empty_of_isEmpty s (by simp [h])

theorem FromNetwork_ToNetwork (c : ssl_cert) (h : wireSafe c = true) :
    FromNetwork (ToNetwork c) = c := by
  obtain ⟨hv, hT, hR, hs, hE, hsp⟩ := flags_spec c
  show fromNetworkChars (metaChars c) = c
  have hsplit : splitUntil ' ' (metaChars c) = (flagsChars c, payloadChars c) := by
    rw [metaChars]
    exact splitUntil_append _ _ _ hsp
  obtain ⟨ci, ct, cr, cu, cf, cd, cis, ce⟩ := c
  cases herr : ce.data.isEmpty with
  | false =>
    simp [wireSafe, herr] at h
    obtain ⟨⟨⟨hfp, hdn⟩, his⟩, hnl⟩ := h
    have hpayload : payloadChars ⟨ci, ct, cr, cu, cf, cd, cis, ce⟩ = ce.data := by
      simp [payloadChars, herr]
    have herrline : splitUntil '\n' ce.data = (ce.data, []) :=
      splitUntil_not_mem '\n' ce.data ((hasChar_eq_false_iff _ _).mp hnl)
    simp only [fromNetworkChars, hsplit, hpayload, herrline, hE, herr,
      Bool.not_false, if_true]
    rw [ssl_cert.mk.injEq]
    exact ⟨hv, hT, hR, hs, (string_eq_empty_of_data_nil cf hfp).symm,
      (string_eq_empty_of_data_nil cd hdn).symm,
      (string_eq_empty_of_data_nil cis his).symm, rfl⟩
  | true =>
    simp [wireSafe, herr] at h
    obtain ⟨⟨hfp, hdn⟩, his⟩ := h
    have hpayload : payloadChars ⟨ci, ct, cr, cu, cf, cd, cis, ce⟩ =
        cf.data ++ ' ' :: (cd.data ++ ' ' :: cis.data) := by
      simp [payloadChars, herr]
    have h1 : splitUntil ' ' (cf.data ++ ' ' :: (cd.data ++ ' ' :: cis.data)) =
        (cf.data, cd.data ++ ' ' :: cis.data) :=
      splitUntil_append ' ' _ _ ((hasChar_eq_false_iff _ _).mp hfp)
    have h2 : splitUntil ' ' (cd.data ++ ' ' :: cis.data) =
        (cd.data, cis.data) :=
      splitUntil_append ' ' _ _ ((hasChar_eq_false_iff _ _).mp hdn)
    have h3 : splitUntil '\n' cis.data = (cis.data, []) :=
      splitUntil_not_mem '\n' cis.data ((hasChar_eq_false_iff _ _).mp his)
    simp only [fromNetworkChars, hsplit, hpayload, h1, h2, h3, hE, herr,
      Bool.not_true, if_false]
    rw [ssl_cert.mk.injEq]
    exact ⟨hv, hT, hR, hs, rfl, rfl, rfl,
      (string_eq_empty_of_isEmpty ce herr).symm⟩

/-- C1, counterexample: a certificate that is legal to set locally but whose
distinguished name contains a space does not survive the encode/decode round
trip — the decoder splits the DN at the space, so `decode(encode(v)) ≠ v`. -/
theorem sslcert_roundtrip_counterexample :
    FromNetwork (ToNetwork certSpaceDN) ≠ certSpaceDN := by decide

/-- C1 (amended): the encode/decode round trip `decode(encode(v)) = v` holds
for every certificate value whose wire image is faithful — no error text
recorded, no space in the fingerprint or distinguished name and no newline in
the issuer, or error text recorded with the detail fields unset and no
newline in the error — and on the canonical wire strings (images of such
values) `encode(decode(s)) = s`. -/
theorem sslcert_encode_decode_roundtrip (c : ssl_cert)
    (h : wireSafe c = true) :
    FromNetwork (ToNetwork c) = c ∧
    ∀ s : String, ToNetwork c = s → ToNetwork (FromNetwork s) = s := by
  refine ⟨FromNetwork_ToNetwork c h, ?_⟩
  intro s hs
  rw [← hs, FromNetwork_ToNetwork c h]

/-- C1, witness: the round trip at a concrete wire-safe certificate. -/
theorem sslcert_encode_decode_roundtrip_witness :
    wireSafe certDetail = true ∧
    FromNetwork (ToNetwork certDetail) = certDetail :=
  ⟨by decide, (sslcert_encode_decode_roundtrip certDetail (by decide)).1⟩

/-- C2: the spec's worked example.  Encoding the trusted certificate with
fingerprint "ab12", DN "CN=test", issuer "CN=ca" and decoding yields an equal
record; encoding the record with only `error := "bad cert"` set and decoding
yields an equal record whose fingerprint, DN and issuer are the unset
default; so the decoder handles both the full-detail and the error-only wire
forms. -/
theorem sslcert_worked_example :
    FromNetwork (ToNetwork certDetail) = certDetail ∧
    FromNetwork (ToNetwork certError) = certError ∧
    (FromNetwork (ToNetwork certError)).fingerprint = "" ∧
    (FromNetwork (ToNetwork certError)).dn = "" ∧
    (FromNetwork (ToNetwork certError)).issuer = "" := by decide

/-- C3, counterexample: the decoder does not reject malformed input.  The
empty string is not a well-formed wire token, yet `FromNetwork` silently
accepts it, producing an all-default certificate record instead of a
`DecodeError`. -/
theorem decoder_accepts_malformed :
    FromNetworkResult "" = Except.ok
      { invalid := false, trusted := false, revoked := false,
        unknownsigner := false, fingerprint := "", dn := "", issuer := "",
        error := "" } := rfl

/-- C3 (amended): the decoder terminates on every input string — arbitrary
malformed byte strings included — and never fails; but it performs no
validation at all: it never returns a `DecodeError`, silently accepting every
input (missing fields default to the empty string). -/
theorem decoder_total_never_rejects (s : String) :
    FromNetworkResult s = Except.ok (fromNetworkChars s.data) ∧
    ∀ e : DecodeError, FromNetworkResult s ≠ Except.error e :=
  ⟨rfl, fun _ h => Except.noConfusion h⟩

theorem find_first_key (key v : String) (pre rest : List (String × String))
    (hpre : ∀ kv ∈ pre, kv.1 ≠ key) :
    (pre ++ (key, v) :: rest).find? (fun kv => kv.1 = key) = some (key, v) := by
  induction pre with
  | nil => simp [List.find?]
  | cons p ps ih =>
    have hp : p.1 ≠ key := hpre p (List.mem_cons_self p ps)
    simp [List.find?, hp, ih (fun kv hk => hpre kv (List.mem_cons_of_mem p hk))]

/-- C4: `ConfValue` returns the Nth tag with the requested name in document
order — exactly the Nth entry of the document-ordered sublist of tags with
that name — so it is `some` when at least N+1 such tags exist and `none`
otherwise. -/
theorem confvalue_nth_in_document_order (store : List ConfigTag)
    (name : String) (n : Nat) :
    ConfValue store name n = (store.filter (fun t => t.tag = name))[n]? ∧
    ((store.filter (fun t => t.tag = name)).length ≤ n →
      ConfValue store name n = none) := by
  have main : ∀ (st : List ConfigTag) (k : Nat),
      ConfValue st name k = (st.filter (fun t => t.tag = name))[k]? := by
    intro st
    induction st with
    | nil => intro k; simp [ConfValue]
    | cons t rest ih =>
      intro k
      by_cases ht : t.tag = name
      · cases k with
        | zero => simp [ConfValue, ht]
        | succ m => simp [ConfValue, ht, ih m]
      · simp [ConfValue, ht, ih k]
  refine ⟨main store n, fun hlen => ?_⟩
  rw [main store n]
  exact List.getElem?_eq_none hlen

/-- C4, witness: in a store with two `connect` tags, occurrence 1 is the
second one in document order and occurrence 2 does not exist. -/
theorem confvalue_witness :
    ConfValue [demoTagA, demoTagB, demoTagC] "connect" 1 = some demoTagC ∧
    ConfValue [demoTagA, demoTagB, demoTagC] "connect" 2 = none := by
  constructor
  · rw [(confvalue_nth_in_document_order [demoTagA, demoTagB, demoTagC]
      "connect" 1).1]
    decide
  · exact (confvalue_nth_in_document_order [demoTagA, demoTagB, demoTagC]
      "connect" 2).2 (by decide)

/-- C5: the required-string reader fails with `MissingKey` when the key is
absent instead of substituting a default; when the key is present, a value
with an embedded newline is rejected by default and accepted only when the
caller explicitly allows newlines. -/
theorem readstring_required_and_newlines (t : ConfigTag) (key : String) :
    ((∀ kv ∈ t.items, kv.1 ≠ key) →
      ∀ b, t.readString key b = Except.error ConfigError.MissingKey) ∧
    (∀ pre v rest, t.items = pre ++ (key, v) :: rest →
      (∀ kv ∈ pre, kv.1 ≠ key) →
      t.readString key true = Except.ok v ∧
      (hasChar v.data '\n' = true →
        t.readString key false = Except.error ConfigError.NewlineForbidden) ∧
      (hasChar v.data '\n' = false → t.readString key false = Except.ok v)) := by
  constructor
  · intro habs b
    have hnone : t.items.find? (fun kv => kv.1 = key) = none := by
      rw [List.find?_eq_none]
      intro kv hkv
      simp [habs kv hkv]
    simp [ConfigTag.readString, hnone]
  · intro pre v rest hitems hpre
    have hfind : t.items.find? (fun kv => kv.1 = key) = some (key, v) := by
      rw [hitems]
      exact find_first_key key v pre rest hpre
    refine ⟨by simp [ConfigTag.readString, hfind], fun hnl => ?_, fun hnl => ?_⟩
    · simp [ConfigTag.readString, hfind, hnl]
    · simp [ConfigTag.readString, hfind, hnl]

/-- C5, witness: on a concrete tag, a missing `fingerprint` key is a
`MissingKey` error; a `host` value embedding a newline is rejected by default
and accepted when newlines are allowed. -/
theorem readstring_witness :
    demoTagOper.readString "fingerprint" false =
      Except.error ConfigError.MissingKey ∧
    demoTagOper.readString "host" false =
      Except.error ConfigError.NewlineForbidden ∧
    demoTagOper.readString "host" true = Except.ok "a\nb" := by
  refine ⟨?_, ?_, ?_⟩
  · exact (readstring_required_and_newlines demoTagOper "fingerprint").1
      (by decide) false
  · exact (((readstring_required_and_newlines demoTagOper "host").2
      [("name", "admin")] "a\nb" [] (by decide) (by decide)).2.1 (by decide))
  · exact (((readstring_required_and_newlines demoTagOper "host").2
      [("name", "admin")] "a\nb" [] (by decide) (by decide)).1)

/-- C8: when a structural cross-check fails, the reload aborts: the
previously published snapshot remains current and unchanged, and the full
accumulated (non-empty) error list is returned.  The published state is
returned as-is, never partially updated. -/
theorem reload_abort_preserves_snapshot
    (parse : String → Snapshot × List String)
    (crosscheck : Snapshot → List String) (source : String)
    (d : DaemonConfig) (hfail : crosscheck (parse source).1 ≠ []) :
    (reload parse crosscheck source d).1 = d ∧
    (reload parse crosscheck source d).2 =
      (parse source).2 ++ crosscheck (parse source).1 ∧
    (reload parse crosscheck source d).2 ≠ [] := by
  have hne : (parse source).2 ++ crosscheck (parse source).1 ≠ [] := by
    intro hnil
    exact hfail (List.append_eq_nil.mp hnil).2
  cases hcase : (parse source).2 ++ crosscheck (parse source).1 with
  | nil => exact absurd hcase hne
  | cons e es => simp [reload, hcase]

/-- C8, witness: a reload whose cross-check reports an undefined parent class
leaves the published snapshot unchanged and returns a non-empty error list. -/
theorem reload_abort_witness :
    (reload demoParse demoCrosscheck "inspircd.conf"
      ⟨[demoTagB]⟩).1 = ⟨[demoTagB]⟩ ∧
    (reload demoParse demoCrosscheck "inspircd.conf" ⟨[demoTagB]⟩).2 ≠ [] := by
  have h := reload_abort_preserves_snapshot demoParse demoCrosscheck
    "inspircd.conf" ⟨[demoTagB]⟩ (by decide)
  exact ⟨h.1, h.2.2⟩

/-- C9: `raise` invokes bound listeners in stable priority order (higher
priority first, ties by registration order), and Deny/Allow verdicts stop
iteration and are returned.  For the spec's example (L1 priority 10 returning
Continue, L2 priority 5 returning Deny, L3 priority 1 returning Allow),
`raise` returns Deny having invoked L1 then L2, and L3 is never invoked. -/
theorem eventpipeline_priority_shortcircuit :
    sortBindings [exampleL3, exampleL1, exampleL2] =
      [exampleL1, exampleL2, exampleL3] ∧
    raise [exampleL3, exampleL1, exampleL2] 0 = (Verdict.Deny, [1, 2]) ∧
    3 ∉ (raise [exampleL3, exampleL1, exampleL2] 0).2 ∧
    (∀ (l : Listener Nat) (rest : List (Listener Nat)) (p : Nat),
      l.handle p = Verdict.Deny →
      runBindings (l :: rest) p = (Verdict.Deny, [l.id])) ∧
    (∀ (l : Listener Nat) (rest : List (Listener Nat)) (p : Nat),
      l.handle p = Verdict.Allow →
      runBindings (l :: rest) p = (Verdict.Allow, [l.id])) := by
  refine ⟨rfl, rfl, by decide, ?_, ?_⟩
  · intro l rest p h
    simp [runBindings, h]
  · intro l rest p h
    simp [runBindings, h]

/-- C9, witness: a listener returning Deny short-circuits immediately. -/
theorem eventpipeline_witness :
    runBindings [exampleL2] 0 = (Verdict.Deny, [2]) := by
  have h := eventpipeline_priority_shortcircuit.2.2.2.1 exampleL2 [] 0 rfl
  exact h

/-- C10: the `ServerLimits` default constructor sets NickMax=31, ChanMax=64,
MaxModes=20, IdentMax=12, MaxQuit=255, MaxTopic=307, MaxKick=255,
MaxGecos=128, MaxAway=200, and `Finalise` increments each limit by exactly
one except `MaxModes`, which it leaves unchanged (barring `size_t`
wraparound). -/
theorem serverlimits_defaults_and_finalise (l : ServerLimits)
    (h1 : l.NickMax + 1 < 2 ^ 64) (h2 : l.ChanMax + 1 < 2 ^ 64)
    (h3 : l.IdentMax + 1 < 2 ^ 64) (h4 : l.MaxQuit + 1 < 2 ^ 64)
    (h5 : l.MaxTopic + 1 < 2 ^ 64) (h6 : l.MaxKick + 1 < 2 ^ 64)
    (h7 : l.MaxGecos + 1 < 2 ^ 64) (h8 : l.MaxAway + 1 < 2 ^ 64) :
    ServerLimits.init =
      { NickMax := 31, ChanMax := 64, MaxModes := 20, IdentMax := 12,
        MaxQuit := 255, MaxTopic := 307, MaxKick := 255, MaxGecos := 128,
        MaxAway := 200 } ∧
    ServerLimits.Finalise l =
      { NickMax := l.NickMax + 1, ChanMax := l.ChanMax + 1,
        MaxModes := l.MaxModes, IdentMax := l.IdentMax + 1,
        MaxQuit := l.MaxQuit + 1, MaxTopic := l.MaxTopic + 1,
        MaxKick := l.MaxKick + 1, MaxGecos := l.MaxGecos + 1,
        MaxAway := l.MaxAway + 1 } := by
  refine ⟨rfl, ?_⟩
  simp [ServerLimits.Finalise, Nat.mod_eq_of_lt h1, Nat.mod_eq_of_lt h2,
    Nat.mod_eq_of_lt h3, Nat.mod_eq_of_lt h4, Nat.mod_eq_of_lt h5,
    Nat.mod_eq_of_lt h6, Nat.mod_eq_of_lt h7, Nat.mod_eq_of_lt h8]
  exact ⟨h1, h2, h3, h4, h5, h6, h7, h8⟩

/-- C10, witness: finalising the defaults adds one to every limit except
MaxModes. -/
theorem serverlimits_witness :
    ServerLimits.Finalise ServerLimits.init =
      { NickMax := 32, ChanMax := 65, MaxModes := 20, IdentMax := 13,
        MaxQuit := 256, MaxTopic := 308, MaxKick := 256, MaxGecos := 129,
        MaxAway := 201 } := by
  have h := (serverlimits_defaults_and_finalise ServerLimits.init
    (by decide) (by decide) (by decide) (by decide) (by decide) (by decide)
    (by decide) (by decide)).2
  simpa [ServerLimits.init] using h

theorem lookupEnt_cons_pos (p : Nat × Nat) (rest : List (Nat × Nat)) (e : Nat)
    (h : p.1 = e) : lookupEnt (p :: rest) e = some p.2 := by
  simp [lookupEnt, List.find?, h]

theorem lookupEnt_cons_neg (p : Nat × Nat) (rest : List (Nat × Nat)) (e : Nat)
    (h : ¬p.1 = e) : lookupEnt (p :: rest) e = lookupEnt rest e := by
  simp [lookupEnt, List.find?, h]

theorem lookupEnt_refsIn_pos (store : List (Nat × Nat)) (e o : Nat)
    (h : lookupEnt store e = some o) : 0 < refsIn store o := by
  induction store with
  | nil => simp [lookupEnt] at h
  | cons p rest ih =>
    by_cases hp : p.1 = e
    · rw [lookupEnt_cons_pos p rest e hp] at h
      have : p.2 = o := by simpa using h
      simp [refsIn, this]
    · rw [lookupEnt_cons_neg p rest e hp] at h
      have := ih h
      simp [refsIn]
      omega

theorem refsIn_storeEnt_none (store : List (Nat × Nat)) (e c x : Nat)
    (h : lookupEnt store e = none) :
    refsIn (storeEnt store e c) x = refsIn store x + (if c = x then 1 else 0) := by
  induction store with
  | nil => simp [storeEnt, refsIn]
  | cons p rest ih =>
    by_cases hp : p.1 = e
    · rw [lookupEnt_cons_pos p rest e hp] at h
      exact absurd h (by simp)
    · rw [lookupEnt_cons_neg p rest e hp] at h
      simp only [storeEnt, hp, if_neg hp, refsIn, ih h]
      omega

theorem refsIn_storeEnt_some (store : List (Nat × Nat)) (e o c x : Nat)
    (h : lookupEnt store e = some o) :
    refsIn (storeEnt store e c) x + (if o = x then 1 else 0) =
      refsIn store x + (if c = x then 1 else 0) := by
  induction store with
  | nil => simp [lookupEnt] at h
  | cons p rest ih =>
    by_cases hp : p.1 = e
    · rw [lookupEnt_cons_pos p rest e hp] at h
      have hpo : p.2 = o := by simpa using h
      simp only [storeEnt, if_pos hp, refsIn, hpo]
      omega
    · rw [lookupEnt_cons_neg p rest e hp] at h
      simp only [storeEnt, if_neg hp, refsIn]
      have := ih h
      omega

theorem removeEnt_of_lookup_none (store : List (Nat × Nat)) (e : Nat)
    (h : lookupEnt store e = none) : removeEnt store e = store := by
  induction store with
  | nil => rfl
  | cons p rest ih =>
    by_cases hp : p.1 = e
    · rw [lookupEnt_cons_pos p rest e hp] at h
      exact absurd h (by simp)
    · rw [lookupEnt_cons_neg p rest e hp] at h
      simp only [removeEnt, if_neg hp, ih h]

theorem refsIn_removeEnt_some (store : List (Nat × Nat)) (e o x : Nat)
    (h : lookupEnt store e = some o) :
    refsIn (removeEnt store e) x + (if o = x then 1 else 0) = refsIn store x := by
  induction store with
  | nil => simp [lookupEnt] at h
  | cons p rest ih =>
    by_cases hp : p.1 = e
    · rw [lookupEnt_cons_pos p rest e hp] at h
      have hpo : p.2 = o := by simpa using h
      simp only [removeEnt, if_pos hp, refsIn, hpo]
      omega
    · rw [lookupEnt_cons_neg p rest e hp] at h
      simp only [removeEnt, if_neg hp, refsIn]
      have := ih h
      omega

theorem lookupEnt_storeEnt (store : List (Nat × Nat)) (e c : Nat) :
    lookupEnt (storeEnt store e c) e = some c := by
  induction store with
  | nil => simp [storeEnt, lookupEnt, List.find?]
  | cons p rest ih =>
    by_cases hp : p.1 = e
    · simp [storeEnt, if_pos hp, lookupEnt, List.find?]
    · simp only [storeEnt, if_neg hp]
      rw [lookupEnt_cons_neg p _ e hp]
      exact ih

theorem set_store_eq (st : ExtState) (e c : Nat) :
    (SSLCertExt.set st e c).store = storeEnt st.store e c := by
  cases hold : lookupEnt st.store e with
  | none => simp only [SSLCertExt.set, rcInc, SSLCertExt.Delete, hold]
  | some o =>
    simp only [SSLCertExt.set, rcInc, SSLCertExt.Delete, rcDec, hold]
    split <;> split <;> rfl

theorem set_rc_some (st : ExtState) (e o c : Nat)
    (h : lookupEnt st.store e = some o) :
    (SSLCertExt.set st e c).rc = fun x =>
      if x = o then (if x = c then st.rc x + 1 else st.rc x) - 1
      else if x = c then st.rc x + 1 else st.rc x := by
  simp only [SSLCertExt.set, rcInc, SSLCertExt.Delete, rcDec, h]
  split <;> split <;> rfl

theorem set_alive_eval (st : ExtState) (e o c x : Nat)
    (h : lookupEnt st.store e = some o) :
    (SSLCertExt.set st e c).alive x =
      if (if o = c then st.rc o + 1 else st.rc o) - 1 = 0 then
        (if x = o then false else st.alive x)
      else st.alive x := by
  simp only [SSLCertExt.set, rcInc, SSLCertExt.Delete, rcDec, h]
  by_cases hoc : o = c
  · subst hoc
    by_cases hz : st.rc o = 0
    · simp [hz]
    · simp [hz]
  · by_cases hz : st.rc o - 1 = 0
    · simp [hoc, hz]
    · simp [hoc, hz]

theorem WF_set (st : ExtState) (e c : Nat) (hwf : WF st)
    (halive : st.alive c = true) : WF (SSLCertExt.set st e c) := by
  obtain ⟨hrc, hlive⟩ := hwf
  have hrc' : ∀ y, st.rc y = refsIn st.store y := hrc
  have hlive' : ∀ y, 0 < refsIn st.store y → st.alive y = true := hlive
  cases hold : lookupEnt st.store e with
  | none =>
    have hs : SSLCertExt.set st e c =
        { store := storeEnt st.store e c,
          rc := fun x => if x = c then st.rc x + 1 else st.rc x,
          alive := st.alive } := by
      simp only [SSLCertExt.set, rcInc, SSLCertExt.Delete, hold]
    rw [hs]
    simp only [WF, refs]
    constructor
    · intro x
      rw [refsIn_storeEnt_none st.store e c x hold]
      by_cases hxc : x = c
      · subst hxc
        simp [hrc' x]
      · simp [hxc, Ne.symm hxc, hrc' x]
    · intro x hx
      rw [refsIn_storeEnt_none st.store e c x hold] at hx
      by_cases hxc : x = c
      · subst hxc
        exact halive
      · simp [Ne.symm hxc] at hx
        exact hlive' x hx
  | some o =>
    have hpos := lookupEnt_refsIn_pos st.store e o hold
    have hstore := set_store_eq st e c
    have hrcs := set_rc_some st e o c hold
    simp only [WF, refs, hstore, hrcs]
    constructor
    · intro x
      have h1 := refsIn_storeEnt_some st.store e o c x hold
      have h2 := hrc' x
      by_cases hxo : x = o
      · subst hxo
        by_cases hxc : x = c
        · subst hxc
          simp at h1 ⊢
          omega
        · simp [hxc, Ne.symm hxc] at h1 ⊢
          omega
      · by_cases hxc : x = c
        · subst hxc
          simp [hxo, Ne.symm hxo] at h1 ⊢
          omega
        · simp [hxo, hxc, Ne.symm hxo, Ne.symm hxc] at h1 ⊢
          omega
    · intro x hx
      rw [set_alive_eval st e o c x hold]
      have h1 := refsIn_storeEnt_some st.store e o c x hold
      by_cases hz : (if o = c then st.rc o + 1 else st.rc o) - 1 = 0
      · rw [if_pos hz]
        by_cases hxo : x = o
        · exfalso
          subst hxo
          have h2 := hrc' x
          by_cases hxc : x = c
          · subst hxc
            simp at h1 hz
            omega
          · simp [hxc, Ne.symm hxc] at h1 hz
            omega
        · rw [if_neg hxo]
          by_cases hxc : x = c
          · subst hxc
            exact halive
          · simp [Ne.symm hxo, Ne.symm hxc] at h1
            rw [h1] at hx
            exact hlive' x hx
      · rw [if_neg hz]
        by_cases hxc : x = c
        · subst hxc
          exact halive
        · by_cases hxo : x = o
          · subst hxo
            exact hlive' x hpos
          · simp [Ne.symm hxo, Ne.symm hxc] at h1
            rw [h1] at hx
            exact hlive' x hx

theorem unset_store_eq (st : ExtState) (e : Nat) :
    (SSLCertExt.unset st e).store = removeEnt st.store e := by
  cases hold : lookupEnt st.store e with
  | none => simp only [SSLCertExt.unset, SSLCertExt.Delete, hold]
  | some o =>
    simp only [SSLCertExt.unset, SSLCertExt.Delete, rcDec, hold]
    split <;> rfl

theorem unset_rc_some (st : ExtState) (e o : Nat)
    (h : lookupEnt st.store e = some o) :
    (SSLCertExt.unset st e).rc =
      fun x => if x = o then st.rc x - 1 else st.rc x := by
  simp only [SSLCertExt.unset, SSLCertExt.Delete, rcDec, h]
  split <;> rfl

theorem unset_alive_eval (st : ExtState) (e o x : Nat)
    (h : lookupEnt st.store e = some o) :
    (SSLCertExt.unset st e).alive x =
      if st.rc o - 1 = 0 then (if x = o then false else st.alive x)
      else st.alive x := by
  simp only [SSLCertExt.unset, SSLCertExt.Delete, rcDec, h]
  by_cases hz : st.rc o - 1 = 0
  · simp [hz]
  · simp [hz]

theorem WF_unset (st : ExtState) (e : Nat) (hwf : WF st) :
    WF (SSLCertExt.unset st e) := by
  obtain ⟨hrc, hlive⟩ := hwf
  have hrc' : ∀ y, st.rc y = refsIn st.store y := hrc
  have hlive' : ∀ y, 0 < refsIn st.store y → st.alive y = true := hlive
  cases hold : lookupEnt st.store e with
  | none =>
    have hs : SSLCertExt.unset st e =
        { st with store := removeEnt st.store e } := by
      simp only [SSLCertExt.unset, SSLCertExt.Delete, hold]
    rw [hs, removeEnt_of_lookup_none st.store e hold]
    exact ⟨hrc, hlive⟩
  | some o =>
    have hpos := lookupEnt_refsIn_pos st.store e o hold
    have hstore := unset_store_eq st e
    have hrcs := unset_rc_some st e o hold
    simp only [WF, refs, hstore, hrcs]
    constructor
    · intro x
      have h1 := refsIn_removeEnt_some st.store e o x hold
      have h2 := hrc' x
      by_cases hxo : x = o
      · subst hxo
        simp at h1 ⊢
        omega
      · simp [hxo, Ne.symm hxo] at h1 ⊢
        omega
    · intro x hx
      rw [unset_alive_eval st e o x hold]
      have h1 := refsIn_removeEnt_some st.store e o x hold
      by_cases hz : st.rc o - 1 = 0
      · rw [if_pos hz]
        by_cases hxo : x = o
        · exfalso
          subst hxo
          have h2 := hrc' x
          simp at h1
          omega
        · rw [if_neg hxo]
          simp [Ne.symm hxo] at h1
          rw [h1] at hx
          exact hlive' x hx
      · rw [if_neg hz]
        by_cases hxo : x = o
        · subst hxo
          exact hlive' x hpos
        · simp [Ne.symm hxo] at h1
          rw [h1] at hx
          exact hlive' x hx

theorem applyOp_WF (st : ExtState) (op : ExtOp) (hwf : WF st) :
    WF (applyOp st op) := by
  cases op with
  | setOp e c =>
    by_cases h : st.alive c = true
    · simp only [applyOp, if_pos h]
      exact WF_set st e c hwf h
    · simp only [applyOp, if_neg h]
      exact hwf
  | unsetOp e =>
    simp only [applyOp]
    exact WF_unset st e hwf

theorem applyOps_WF (st : ExtState) (ops : List ExtOp) (hwf : WF st) :
    WF (applyOps st ops) := by
  induction ops generalizing st with
  | nil => simpa [applyOps] using hwf
  | cons op rest ih =>
    simp only [applyOps, List.foldl_cons]
    exact ih (applyOp st op) (applyOp_WF st op hwf)

/-- C6: setting a certificate on an entity that already carries payload `o`
replaces it — a subsequent `get` returns the new value — and releases the old
payload: its reference count drops by one net (the new value's count is
incremented before the old one is released, so replacing a payload by itself
is safe), and the old record stays alive exactly while its count is still
positive, being destroyed when the count reaches zero. -/
theorem set_replaces_and_releases (st : ExtState) (e o c : Nat) (hwf : WF st)
    (halive : st.alive c = true) (hold : SSLCertExt.get st e = some o) :
    SSLCertExt.get (SSLCertExt.set st e c) e = some c ∧
    (SSLCertExt.set st e c).rc o + 1 = st.rc o + (if o = c then 1 else 0) ∧
    ((SSLCertExt.set st e c).alive o = true ↔
      0 < (SSLCertExt.set st e c).rc o) := by
  obtain ⟨hrc, hlive⟩ := hwf
  have hrc' : ∀ y, st.rc y = refsIn st.store y := hrc
  have hlive' : ∀ y, 0 < refsIn st.store y → st.alive y = true := hlive
  have holdl : lookupEnt st.store e = some o := hold
  have hpos := lookupEnt_refsIn_pos st.store e o holdl
  have hro : 0 < st.rc o := by
    rw [hrc' o]
    exact hpos
  have hrcs := set_rc_some st e o c holdl
  refine ⟨?_, ?_, ?_⟩
  · show lookupEnt (SSLCertExt.set st e c).store e = some c
    rw [set_store_eq]
    exact lookupEnt_storeEnt st.store e c
  · rw [hrcs]
    by_cases hoc : o = c
    · subst hoc
      simp
    · simp [hoc]
      omega
  · rw [set_alive_eval st e o c o holdl, hrcs]
    by_cases hz : (if o = c then st.rc o + 1 else st.rc o) - 1 = 0
    · rw [if_pos hz]
      by_cases hoc : o = c
      · subst hoc
        simp at hz ⊢
        omega
      · simp [hoc] at hz ⊢
        omega
    · rw [if_neg hz]
      have halo : st.alive o = true := hlive' o hpos
      by_cases hoc : o = c
      · subst hoc
        simp [halo] at hz ⊢
        omega
      · simp [hoc, halo] at hz ⊢
        omega

theorem demoState_WF : WF demoState := by
  constructor
  · intro c
    by_cases h : c = 10
    · subst h
      simp [demoState, refs, refsIn]
    · simp [demoState, refs, refsIn, h, Ne.symm h]
  · intro c hc
    by_cases h : c = 10
    · subst h
      simp [demoState]
    · simp [demoState, refs, refsIn, Ne.symm h] at hc

/-- C6, witness: on a concrete state where entity 1 carries record 10 (shared
with entity 2) and record 20 is freshly allocated, setting record 20 on
entity 1 makes `get` return 20, drops record 10's count from 2 to 1, and
record 10 remains alive since its count is still positive. -/
theorem set_replaces_witness :
    SSLCertExt.get (SSLCertExt.set demoState 1 20) 1 = some 20 ∧
    (SSLCertExt.set demoState 1 20).rc 10 + 1 =
      demoState.rc 10 + (if 10 = 20 then 1 else 0) ∧
    ((SSLCertExt.set demoState 1 20).alive 10 = true ↔
      0 < (SSLCertExt.set demoState 1 20).rc 10) :=
  set_replaces_and_releases demoState 1 10 20 demoState_WF rfl rfl

/-- C7: reference counts track sharing exactly, and a record still referenced
by at least one entity is never destroyed.  Starting from any well-formed
state, after an arbitrary sequence of set/unset operations across entities
every record's reference count still equals the number of entities
referencing it (each set increments before storing, each release decrements,
destruction happens exactly at zero), and any record an entity still
references is alive. -/
theorem refcount_shared_payload_invariant (st : ExtState) (ops : List ExtOp)
    (hwf : WF st) :
    (∀ c, (applyOps st ops).rc c = refs (applyOps st ops) c) ∧
    (∀ e c, SSLCertExt.get (applyOps st ops) e = some c →
      (applyOps st ops).alive c = true) := by
  have hwf' := applyOps_WF st ops hwf
  refine ⟨hwf'.1, fun e c hget => hwf'.2 c ?_⟩
  exact lookupEnt_refsIn_pos (applyOps st ops).store e c hget

/-- C7, witness: records 10 is shared by entities 1 and 2; after entity 2
takes a different record and entity 1 unsets, the still-shared steps never
destroy a referenced record — here entity 2's reference keeps record 10
alive after entity 1 unsets it. -/
theorem refcount_invariant_witness :
    SSLCertExt.get (applyOps demoState [ExtOp.unsetOp 1]) 2 = some 10 ∧
    (applyOps demoState [ExtOp.unsetOp 1]).alive 10 = true :=
  ⟨rfl, (refcount_shared_payload_invariant demoState [ExtOp.unsetOp 1]
    demoState_WF).2 2 10 rfl⟩
